import Mathlib

/-!
Verification development for the document-classification / ECTS-extraction
pipeline (source files: src/utils/document_classifier.py, src/utils/ocr_ects.py,
src/utils/university_matcher.py).

The Python code is shallowly embedded: strings are Lean `String`s, Python dicts
are insertion-ordered association lists, credit values (Python floats that are
only ever parsed from short decimal literals and added) are modelled as `ℚ`,
and the external collaborators (the OCR engine, page renderer and the hOCR
fallback extractor) are modelled as explicit parameters/oracles.
-/

/-! ## Python string primitives -/

/-- Python whitespace for str.strip and the regex class \s
(space, tab, newline, carriage return, vertical tab, form feed). -/
def pyIsSpace (c : Char) : Bool :=
  c = ' ' || c = '\t' || c = '\n' || c = '\r' || c = '\x0b' || c = '\x0c'

/-- Python str.strip(): drop leading and trailing whitespace. -/
def pyStrip (s : String) : String :=
  String.mk (((s.toList.dropWhile pyIsSpace).reverse.dropWhile pyIsSpace).reverse)

/-- Python str.lower(), on the ASCII letters plus the German capital umlauts
that can occur in the inputs of this code base (other characters are unchanged,
as in Python for non-cased characters). -/
def pyLowerChar (c : Char) : Char :=
  if 'A' ≤ c && c ≤ 'Z' then Char.ofNat (c.toNat + 32)
  else if c = 'Ä' then 'ä' else if c = 'Ö' then 'ö' else if c = 'Ü' then 'ü' else c

/-- Python str.lower() lifted to strings. -/
def pyLower (s : String) : String := String.mk (s.toList.map pyLowerChar)

/-- Python str.splitlines on its common line terminators newline, carriage
return and carriage-return+newline; as in Python, a trailing terminator does
not produce a final empty line and the empty string has no lines. -/
def splitlinesAux : List Char → List Char → List String
  | cur, [] => if cur.isEmpty then [] else [String.mk cur.reverse]
  | cur, '\r' :: '\n' :: rest => String.mk cur.reverse :: splitlinesAux [] rest
  | cur, '\n' :: rest => String.mk cur.reverse :: splitlinesAux [] rest
  | cur, '\r' :: rest => String.mk cur.reverse :: splitlinesAux [] rest
  | cur, c :: rest => splitlinesAux (c :: cur) rest

/-- Python str.splitlines. -/
def splitlines (s : String) : List String := splitlinesAux [] s.toList

/-- Python substring test (the `in` operator) on character lists. -/
def listHasInfix : List Char → List Char → Bool
  | _, [] => true
  | [], _ :: _ => false
  | c :: t, p :: ps => List.isPrefixOf (p :: ps) (c :: t) || listHasInfix t (p :: ps)

/-- Python substring test: `pat in hay`. -/
def containsStr (hay pat : String) : Bool := listHasInfix hay.toList pat.toList

/-- Python str.count: number of non-overlapping occurrences, scanning left to
right (fuel-indexed; the fuel is the haystack length, which suffices for the
non-empty patterns used here). -/
def countSubAux (pat : List Char) : Nat → List Char → Nat
  | 0, _ => 0
  | _ + 1, [] => 0
  | n + 1, c :: cs =>
    if List.isPrefixOf pat (c :: cs) then
      1 + countSubAux pat n ((c :: cs).drop pat.length)
    else
      countSubAux pat n cs

/-- Python str.count. -/
def countSub (s pat : String) : Nat := countSubAux pat.toList s.toList.length s.toList

/-! ## src/utils/document_classifier.py : keyword tables -/

def TRANSCRIPT_KEYWORDS : List String :=
  ["transcript of records", "transcript of academic record", "grade report",
   "leistungsübersicht", "notenübersicht", "notenspiegel", "leistungsnachweis",
   "academic transcript", "student transcript", "official transcript",
   "study record", "course history", "marksheet", "mark sheet",
   "statement of marks", "statement of results"]

def ECTS_KEYWORDS : List String :=
  ["ects", "leistungspunkte", "credits", "credit points", "cp "]

/-- The alternatives of SEMESTER_RE =
(wise|sose|wintersemester|sommersemester|ws ?20|ss ?20), expanded: the optional
space gives two literal alternatives each.  The classifier only asks whether
findall returns at least one match, i.e. whether some alternative occurs as a
substring. -/
def SEMESTER_ALTS : List String :=
  ["wise", "sose", "wintersemester", "sommersemester", "ws 20", "ws20", "ss 20", "ss20"]

def GERMAN_CERT_KEYWORDS : List String :=
  ["dsh-2", "dsh-3", "testdaf", "goethe-zertifikat", "deutsches sprachdiplom",
   "telc deutsch", "ösd", "ösd", "sprachprüfung"]

def ENGLISH_CERT_KEYWORDS : List String :=
  ["toefl", "ielts", "cambridge english", "linguaskill",
   "first certificate", "language test report form"]

def MODULE_OVERVIEW_KEYWORDS : List String :=
  ["module overview", "modulübersicht", "moduluebersicht",
   "module catalogue", "course catalogue", "study plan", "modulkatalog",
   "curriculum"]

def GRADE_WORDS : List String := ["note", "grade", "bewertung", "ergebnis", "result"]

def DEGREE_KEYWORDS : List String :=
  ["bachelorzeugnis", "zeugnis", "urkunde", "bachelor of science",
   "bachelor of arts", "bachelor of engineering", "degree certificate",
   "diploma", "this is to certify that", "has been awarded the degree"]

def TRANSCRIPT_INDICATORS : List String := ["transcript", "ects", "credits"]

def VPD_KEYWORDS : List String :=
  ["vorprüfungsdokumentation", "vorpruefungsdokumentation", "uni-assist", "vpd"]

def VPD_PHRASES : List String := ["bewertung", "ausländischer hochschulabschluss"]

/-! ## src/utils/document_classifier.py : scorers -/

/-- score_transcript: keyword gate (+5), ECTS keywords (+3), at least one
semester tag (+2), at least 15 lines containing a digit (+2).
The text_norm argument is received but, as in the source, not used. -/
def score_transcript (text_low text_norm : String) : Nat :=
  (if TRANSCRIPT_KEYWORDS.any (fun k => containsStr text_low k) then 5 else 0)
  + (if ECTS_KEYWORDS.any (fun k => containsStr text_low k) then 3 else 0)
  + (if SEMESTER_ALTS.any (fun k => containsStr text_low k) then 2 else 0)
  + (if 15 ≤ ((splitlines text_low).filter
        (fun ln => ln.toList.any Char.isDigit)).length then 2 else 0)

/-- score_language_cert: program "bwl" gates on the German certificate
keywords, any other program on the English ones. -/
def score_language_cert (text_low program : String) : Nat :=
  if program = "bwl" then
    if GERMAN_CERT_KEYWORDS.any (fun k => containsStr text_low k) then 5 else 0
  else
    if ENGLISH_CERT_KEYWORDS.any (fun k => containsStr text_low k) then 5 else 0

/-- score_module_overview: keyword gate (+6), at least four occurrences of
"ects"/"lp" (+3), at most two grade-word occurrences (+1). -/
def score_module_overview (text_low : String) : Nat :=
  (if MODULE_OVERVIEW_KEYWORDS.any (fun k => containsStr text_low k) then 6 else 0)
  + (if 4 ≤ countSub text_low "ects" + countSub text_low "lp" then 3 else 0)
  + (if (GRADE_WORDS.map (fun g => countSub text_low g)).sum ≤ 2 then 1 else 0)

/-- score_degree_certificate: keyword gate (+4), at least one grade word (+1),
no transcript indicator (+1).  text_norm is received but unused, as in the
source. -/
def score_degree_certificate (text_low text_norm : String) : Nat :=
  (if DEGREE_KEYWORDS.any (fun k => containsStr text_low k) then 4 else 0)
  + (if 1 ≤ (GRADE_WORDS.map (fun w => countSub text_low w)).sum then 1 else 0)
  + (if ¬ (TRANSCRIPT_INDICATORS.any (fun k => containsStr text_low k)) then 1 else 0)

/-- score_vpd: keyword gate (+7), both VPD phrases present (+3). -/
def score_vpd (text_low : String) : Nat :=
  (if VPD_KEYWORDS.any (fun k => containsStr text_low k) then 7 else 0)
  + (if VPD_PHRASES.all (fun p => containsStr text_low p) then 3 else 0)

/-- Modelled from the spec: ocr_engine.normalize_text is an external
collaborator whose module is not under src/; its result is only passed to
scorers that never read it, so any function is observationally equivalent
here and it is modelled as the identity. -/
def normalize_text (s : String) : String := s

/-! ## Python max(dict, key=dict.get) and dict lookup -/

/-- The fold inside Python max(iterable, key=...): a later element replaces the
running best only when its key is strictly greater, so the first maximal
element in iteration order wins. -/
def pyMaxAux : (String × Nat) → List (String × Nat) → (String × Nat)
  | best, [] => best
  | best, p :: rest => pyMaxAux (if best.2 < p.2 then p else best) rest

/-- Python max(scores, key=scores.get) over an insertion-ordered dict,
returning the full entry (key and value). -/
def pyMaxKey : List (String × Nat) → (String × Nat)
  | [] => ("", 0)
  | a :: t => pyMaxAux a t

/-- Dict lookup scores[key] (the key is always present where this is used;
the default 0 is never reached). -/
def dictGetN : List (String × Nat) → String → Nat
  | [], _ => 0
  | (k, v) :: d, key => if k = key then v else dictGetN d key

/-! ## src/utils/document_classifier.py : classify_document -/

/-- The scores dict built by classify_document, in its insertion order. -/
def score_map (text_low text_norm program : String) : List (String × Nat) :=
  [("module_overview", score_module_overview text_low),
   ("transcript", score_transcript text_low text_norm),
   ("language_certificate", score_language_cert text_low program),
   ("degree_certificate", score_degree_certificate text_low text_norm),
   ("vpd", score_vpd text_low)]

/-- classify_document, parametrised by the OCR'd text of the document's first
page (ocr_text_from_pdf is an effectful collaborator; the claims about this
function quantify over the recognized text). -/
def classify_document (text program : String) : String × List (String × Nat) :=
  if pyStrip text = "" then ("other", [])
  else
    let text_low := pyLower text
    let text_norm := normalize_text text
    let scores := score_map text_low text_norm program
    let best_type := (pyMaxKey scores).1
    let best_score := dictGetN scores best_type
    if best_score < 3 then ("other", scores) else (best_type, scores)

/-! ## Argmax lemmas for pyMaxKey -/

/-- key is the first entry of l attaining the maximal value: l splits around
(key, v) with strictly smaller values before and no larger value after. -/
def isFirstArgmax (l : List (String × Nat)) (key : String) : Prop :=
  ∃ v l₁ l₂, l = l₁ ++ (key, v) :: l₂ ∧
    (∀ p ∈ l₁, p.2 < v) ∧ (∀ p ∈ l₂, p.2 ≤ v)

theorem pyMaxAux_spec (l : List (String × Nat)) : ∀ init : String × Nat,
    (pyMaxAux init l = init ∧ ∀ p ∈ l, p.2 ≤ init.2) ∨
    (∃ l₁ l₂, l = l₁ ++ pyMaxAux init l :: l₂ ∧ init.2 < (pyMaxAux init l).2 ∧
      (∀ p ∈ l₁, p.2 < (pyMaxAux init l).2) ∧
      (∀ p ∈ l₂, p.2 ≤ (pyMaxAux init l).2)) := by
  induction l with
  | nil =>
    intro init
    exact Or.inl ⟨rfl, by simp⟩
  | cons a t ih =>
    intro init
    by_cases hia : init.2 < a.2
    · have hred : pyMaxAux init (a :: t) = pyMaxAux a t := by
        simp [pyMaxAux, hia]
      rcases ih a with ⟨heq, hle⟩ | ⟨t₁, t₂, hsplit, hlt, hpre, hsuf⟩
      · refine Or.inr ⟨[], t, ?_, ?_, ?_, ?_⟩
        · rw [hred, heq]; rfl
        · rw [hred, heq]; exact hia
        · simp
        · intro p hp; rw [hred, heq]; exact hle p hp
      · refine Or.inr ⟨a :: t₁, t₂, ?_, ?_, ?_, ?_⟩
        · rw [hred]; conv_lhs => rw [hsplit]
          rfl
        · rw [hred]; exact lt_trans hia hlt
        · intro p hp
          rw [hred]
          rcases List.mem_cons.mp hp with h | h
          · subst h; exact hlt
          · exact hpre p h
        · intro p hp; rw [hred]; exact hsuf p hp
    · have hred : pyMaxAux init (a :: t) = pyMaxAux init t := by
        simp [pyMaxAux, hia]
      rcases ih init with ⟨heq, hle⟩ | ⟨t₁, t₂, hsplit, hlt, hpre, hsuf⟩
      · refine Or.inl ⟨by rw [hred, heq], ?_⟩
        intro p hp
        rcases List.mem_cons.mp hp with h | h
        · subst h; exact Nat.le_of_not_lt hia
        · exact hle p h
      · refine Or.inr ⟨a :: t₁, t₂, ?_, ?_, ?_, ?_⟩
        · rw [hred]; conv_lhs => rw [hsplit]
          rfl
        · rw [hred]; exact hlt
        · intro p hp
          rw [hred]
          rcases List.mem_cons.mp hp with h | h
          · subst h; exact lt_of_le_of_lt (Nat.le_of_not_lt hia) hlt
          · exact hpre p h
        · intro p hp; rw [hred]; exact hsuf p hp

/-- pyMaxKey on a non-empty dict splits the dict around the returned entry:
strictly smaller values strictly before it, no larger value after it. -/
theorem pyMax_split (a : String × Nat) (t : List (String × Nat)) :
    ∃ l₁ l₂, a :: t = l₁ ++ pyMaxKey (a :: t) :: l₂ ∧
      (∀ p ∈ l₁, p.2 < (pyMaxKey (a :: t)).2) ∧
      (∀ p ∈ l₂, p.2 ≤ (pyMaxKey (a :: t)).2) := by
  have hk : pyMaxKey (a :: t) = pyMaxAux a t := rfl
  rcases pyMaxAux_spec t a with ⟨heq, hle⟩ | ⟨t₁, t₂, hsplit, hlt, hpre, hsuf⟩
  · refine ⟨[], t, ?_, ?_, ?_⟩
    · rw [hk, heq]; rfl
    · intro p hp; exact absurd hp (List.not_mem_nil p)
    · intro p hp; rw [hk, heq]; exact hle p hp
  · refine ⟨a :: t₁, t₂, ?_, ?_, ?_⟩
    · rw [hk]
      conv_lhs => rw [hsplit]
      rfl
    · intro p hp
      rw [hk]
      rcases List.mem_cons.mp hp with h | h
      · subst h; exact hlt
      · exact hpre p h
    · intro p hp; rw [hk]; exact hsuf p hp

theorem pyMax_mem (a : String × Nat) (t : List (String × Nat)) :
    pyMaxKey (a :: t) ∈ a :: t := by
  rcases pyMax_split a t with ⟨l₁, l₂, hsplit, -, -⟩
  have h : pyMaxKey (a :: t) ∈ l₁ ++ pyMaxKey (a :: t) :: l₂ := by simp
  rw [← hsplit] at h
  exact h

/-- Wrinkle of pyMax_split: elements strictly before the returned entry are
strictly smaller. -/
theorem pyMax_isFirstArgmax (a : String × Nat) (t : List (String × Nat)) :
    isFirstArgmax (a :: t) (pyMaxKey (a :: t)).1 := by
  rcases pyMax_split a t with ⟨l₁, l₂, hsplit, hpre, hsuf⟩
  refine ⟨(pyMaxKey (a :: t)).2, l₁, l₂, ?_, hpre, hsuf⟩
  rw [Prod.mk.eta]
  exact hsplit

/-- The maximum value of a score dict (0 for the empty dict). -/
def valMax (l : List (String × Nat)) : Nat := (l.map Prod.snd).foldr max 0

theorem le_valMax {l : List (String × Nat)} {p : String × Nat} (hp : p ∈ l) :
    p.2 ≤ valMax l := by
  induction l with
  | nil => cases hp
  | cons a t ih =>
    rcases List.mem_cons.mp hp with h | h
    · subst h; exact Nat.le_max_left _ _
    · exact le_trans (ih h) (Nat.le_max_right _ _)

theorem valMax_le {l : List (String × Nat)} {m : Nat}
    (h : ∀ p ∈ l, p.2 ≤ m) : valMax l ≤ m := by
  induction l with
  | nil => exact Nat.zero_le m
  | cons a t ih =>
    have h1 : a.2 ≤ m := h a (List.mem_cons_self a t)
    have h2 : valMax t ≤ m := ih (fun p hp => h p (List.mem_cons_of_mem a hp))
    exact max_le h1 h2

/-- The entry pyMaxKey returns carries the maximal value of the dict. -/
theorem pyMax_val (a : String × Nat) (t : List (String × Nat)) :
    (pyMaxKey (a :: t)).2 = valMax (a :: t) := by
  rcases pyMax_split a t with ⟨l₁, l₂, hsplit, hpre, hsuf⟩
  apply le_antisymm
  · exact le_valMax (pyMax_mem a t)
  · apply valMax_le
    intro p hp
    rw [hsplit] at hp
    rcases List.mem_append.mp hp with h | h
    · exact le_of_lt (hpre p h)
    · rcases List.mem_cons.mp h with h' | h'
      · subst h'; exact le_rfl
      · exact hsuf p h'

/-- Lookup of a present key in a dict with pairwise distinct keys returns that
entry's value. -/
theorem dictGetN_of_mem_nodup {l : List (String × Nat)} {p : String × Nat}
    (hp : p ∈ l) (hnd : (l.map Prod.fst).Nodup) : dictGetN l p.1 = p.2 := by
  induction l with
  | nil => cases hp
  | cons a t ih =>
    rcases List.mem_cons.mp hp with h | h
    · subst h
      show (if p.1 = p.1 then p.2 else dictGetN t p.1) = p.2
      simp
    · have hne : a.1 ≠ p.1 := by
        intro he
        have : p.1 ∈ t.map Prod.fst := List.mem_map_of_mem Prod.fst h
        rw [List.map_cons] at hnd
        rw [he] at hnd
        exact (List.nodup_cons.mp hnd).1 this
      show (if a.1 = p.1 then a.2 else dictGetN t p.1) = p.2
      rw [if_neg hne]
      exact ih h (List.nodup_cons.mp (by rw [List.map_cons] at hnd; exact hnd)).2

/-! ## C1 and C6 -/

/-- C1: for non-blank input text the returned score map is exactly the
per-category score dict, and the label is the category with the maximal score
(ties broken by the insertion order of the five category names), except that
a maximal score below 3 forces the label "other". -/
theorem classify_document_spec (text program : String) (h : pyStrip text ≠ "") :
    (classify_document text program).2
        = score_map (pyLower text) (normalize_text text) program ∧
    (valMax (score_map (pyLower text) (normalize_text text) program) < 3 →
        (classify_document text program).1 = "other") ∧
    (3 ≤ valMax (score_map (pyLower text) (normalize_text text) program) →
        isFirstArgmax (score_map (pyLower text) (normalize_text text) program)
          (classify_document text program).1) := by
  have hcd : classify_document text program =
      (if dictGetN (score_map (pyLower text) (normalize_text text) program)
            (pyMaxKey (score_map (pyLower text) (normalize_text text) program)).1 < 3
       then ("other", score_map (pyLower text) (normalize_text text) program)
       else ((pyMaxKey (score_map (pyLower text) (normalize_text text) program)).1,
             score_map (pyLower text) (normalize_text text) program)) := by
    unfold classify_document
    rw [if_neg h]
  have hcons : score_map (pyLower text) (normalize_text text) program =
      ("module_overview", score_module_overview (pyLower text)) ::
      [("transcript", score_transcript (pyLower text) (normalize_text text)),
       ("language_certificate", score_language_cert (pyLower text) program),
       ("degree_certificate", score_degree_certificate (pyLower text) (normalize_text text)),
       ("vpd", score_vpd (pyLower text))] := rfl
  have hnd : ((score_map (pyLower text) (normalize_text text) program).map Prod.fst).Nodup := by
    have : (score_map (pyLower text) (normalize_text text) program).map Prod.fst =
        ["module_overview", "transcript", "language_certificate",
         "degree_certificate", "vpd"] := rfl
    rw [this]
    decide
  have hmem : pyMaxKey (score_map (pyLower text) (normalize_text text) program)
      ∈ score_map (pyLower text) (normalize_text text) program := by
    rw [hcons]; exact pyMax_mem _ _
  have hbs : dictGetN (score_map (pyLower text) (normalize_text text) program)
      (pyMaxKey (score_map (pyLower text) (normalize_text text) program)).1
      = (pyMaxKey (score_map (pyLower text) (normalize_text text) program)).2 :=
    dictGetN_of_mem_nodup hmem hnd
  have hvm : (pyMaxKey (score_map (pyLower text) (normalize_text text) program)).2
      = valMax (score_map (pyLower text) (normalize_text text) program) := by
    rw [hcons]; exact pyMax_val _ _
  refine ⟨?_, ?_, ?_⟩
  · rw [hcd]
    split_ifs <;> rfl
  · intro hlt
    rw [hcd, if_pos (by rw [hbs, hvm]; exact hlt)]
  · intro hge
    rw [hcd, if_neg (by rw [hbs, hvm]; omega)]
    show isFirstArgmax _ (pyMaxKey _).1
    rw [hcons]
    exact pyMax_isFirstArgmax _ _

theorem classify_document_spec_witness :
    pyStrip "curriculum ects ects ects ects" ≠ "" ∧
    ((classify_document "curriculum ects ects ects ects" "x").2
        = score_map (pyLower "curriculum ects ects ects ects")
            (normalize_text "curriculum ects ects ects ects") "x" ∧
     (valMax (score_map (pyLower "curriculum ects ects ects ects")
            (normalize_text "curriculum ects ects ects ects") "x") < 3 →
        (classify_document "curriculum ects ects ects ects" "x").1 = "other") ∧
     (3 ≤ valMax (score_map (pyLower "curriculum ects ects ects ects")
            (normalize_text "curriculum ects ects ects ects") "x") →
        isFirstArgmax (score_map (pyLower "curriculum ects ects ects ects")
            (normalize_text "curriculum ects ects ects ects") "x")
          (classify_document "curriculum ects ects ects ects" "x").1)) :=
  ⟨by decide, classify_document_spec "curriculum ects ects ects ects" "x" (by decide)⟩

/-- C6: empty or whitespace-only input text short-circuits classify_document
to the label "other" with the empty score map (the five scorers never run:
the branch returns before they are evaluated). -/
theorem classify_document_empty (text program : String) (h : pyStrip text = "") :
    classify_document text program = ("other", []) := by
  unfold classify_document
  rw [if_pos h]

theorem classify_document_empty_witness :
    pyStrip "  \t\n " = "" ∧ classify_document "  \t\n " "bwl" = ("other", []) :=
  ⟨by decide, classify_document_empty "  \t\n " "bwl" (by decide)⟩

/-! ## src/utils/ocr_ects.py : dicts of credit sums -/

/-- Dict lookup over the credit-sum map. -/
def dictGet? : List (String × ℚ) → String → Option ℚ
  | [], _ => none
  | (k, v) :: d, key => if k = key then some v else dictGet? d key

/-- Dict assignment d[k] = v: overwrite in place, else append (Python dicts
keep the original insertion position on overwrite). -/
def dictSet : List (String × ℚ) → String → ℚ → List (String × ℚ)
  | [], k, v => [(k, v)]
  | (k', v') :: d, k, v =>
    if k' = k then (k', v) :: d else (k', v') :: dictSet d k v

/-- The idiom `if cat not in sums: sums[cat] = 0.0; sums[cat] += val`:
add in place if present, else append the value. -/
def dictAdd : List (String × ℚ) → String → ℚ → List (String × ℚ)
  | [], k, v => [(k, v)]
  | (k', v') :: d, k, v =>
    if k' = k then (k', v' + v) :: d else (k', v') :: dictAdd d k v

/-- The comprehension {cat: 0.0 for cat in categories}. -/
def zeroSums (categories : List String) : List (String × ℚ) :=
  categories.foldl (fun d c => dictSet d c 0) []

/-! ## src/utils/ocr_ects.py : character classes and float parsing -/

/-- Python str.isdigit: ASCII digits plus the superscript and subscript digit
characters (the relevant part of its Unicode behaviour: these are isdigit-true
but are not matched by the regex class \d). -/
def pyIsDigit (c : Char) : Bool :=
  c.isDigit || c = '¹' || c = '²' || c = '³' ||
  c = '⁰' || c = '⁴' || c = '⁵' || c = '⁶' || c = '⁷' || c = '⁸' || c = '⁹' ||
  c = '₀' || c = '₁' || c = '₂' || c = '₃' || c = '₄' || c = '₅' ||
  c = '₆' || c = '₇' || c = '₈' || c = '₉'

/-- Word-constituent characters for the regex boundary \b: ASCII word
characters plus the German letters that can appear in this OCR text. -/
def pyIsWord (c : Char) : Bool :=
  c.isAlphanum || c = '_' || c = 'ä' || c = 'ö' || c = 'ü' || c = 'ß'

/-- Value of an ASCII digit string. -/
def digitsVal (l : List Char) : Nat :=
  l.foldl (fun a c => a * 10 + (c.toNat - 48)) 0

/-- Modelled from the spec / the Python builtin float(): parsing of plain
decimal literals (optional sign, integer digits, optional fraction) — the only
shape of string it receives in this code; exponent forms, inf and nan never
occur here.  Values are exact rationals. -/
def pyFloatCore (l : List Char) : Option ℚ :=
  let intp := l.takeWhile Char.isDigit
  let rest := l.dropWhile Char.isDigit
  match rest with
  | [] => if intp.isEmpty then none else some ((digitsVal intp : ℚ))
  | c :: frac =>
    if c = '.' && frac.all Char.isDigit && !(intp.isEmpty && frac.isEmpty) then
      some ((digitsVal intp : ℚ) + (digitsVal frac : ℚ) / (10 : ℚ) ^ frac.length)
    else none

/-- Python float() on a string. -/
def pyFloat (s : String) : Option ℚ :=
  match s.toList with
  | [] => none
  | c :: r =>
    if c = '-' then (pyFloatCore r).map (fun q => -q)
    else if c = '+' then pyFloatCore r
    else pyFloatCore (c :: r)

/-- val_str.replace(",", ".") — for a one-character pattern Python replace is
a character map. -/
def commaToDot (s : String) : String :=
  String.mk (s.toList.map (fun c => if c = ',' then '.' else c))

/-- The numeric conversion of ocr_ects.py line 329:
float(val_str.replace(",", ".")). -/
def parse_credit (s : String) : Option ℚ := pyFloat (commaToDot s)

/-! ## src/utils/ocr_ects.py : MODULE_OVERVIEW_ECTS_RE and the bare-number
pattern -/

/-- The optional fraction (?:[.,]\d)? at the head of the list (greedy). -/
def fracAt (l : List Char) : List Char × List Char :=
  match l with
  | p :: d :: rest =>
    if (p = '.' || p = ',') && d.isDigit then ([p, d], rest) else ([], l)
  | _ => ([], l)

/-- One greedy attempt of the numeric core \d{1,2}(?:[.,]\d)? at the head of
the list.  Greediness is committed: for both uses of this core, retrying a
shorter digit run at the same position leaves a digit directly in front of the
remainder of the pattern, which no continuation of either pattern can match,
so committed greedy parsing agrees with regex backtracking semantics. -/
def numAt (l : List Char) : Option (List Char × List Char) :=
  match l with
  | [] => none
  | c :: rest =>
    if c.isDigit then
      match rest with
      | d :: rest2 =>
        if d.isDigit then
          some ([c, d] ++ (fracAt rest2).1, (fracAt rest2).2)
        else
          some ([c] ++ (fracAt rest).1, (fracAt rest).2)
      | [] => some ([c], [])
    else none

/-- No following word-constituent character: the boundary \b after a unit. -/
def boundaryOk : List Char → Bool
  | [] => true
  | c :: _ => !(pyIsWord c)

/-- The unit alternation (?:ects|lp|credit points?|cp)\b, alternatives tried
in regex order, the greedy optional s first. -/
def unitAt (l : List Char) : Bool :=
  (List.isPrefixOf "ects".toList l && boundaryOk (l.drop 4)) ||
  (List.isPrefixOf "lp".toList l && boundaryOk (l.drop 2)) ||
  (List.isPrefixOf "credit points".toList l && boundaryOk (l.drop 13)) ||
  (List.isPrefixOf "credit point".toList l && boundaryOk (l.drop 12)) ||
  (List.isPrefixOf "cp".toList l && boundaryOk (l.drop 2))

/-- MODULE_OVERVIEW_ECTS_RE matched at the current position: the numeric core,
then \s*, then a unit with a word boundary; yields capture group 1. -/
def ectsMatchAt (l : List Char) : Option (List Char) :=
  match numAt l with
  | none => none
  | some (cand, rest) =>
    if unitAt (rest.dropWhile pyIsSpace) then some cand else none

/-- re.search of MODULE_OVERVIEW_ECTS_RE: the leftmost start position that
matches wins (fuel-indexed scan; fuel = length suffices). -/
def searchEctsAux : Nat → List Char → Option (List Char)
  | 0, _ => none
  | _ + 1, [] => none
  | n + 1, c :: cs =>
    match ectsMatchAt (c :: cs) with
    | some cand => some cand
    | none => searchEctsAux n cs

def searchEcts (s : String) : Option String :=
  (searchEctsAux s.toList.length s.toList).map String.mk

/-- re.findall of the bare pattern (\d{1,2}(?:[.,]\d)?): non-overlapping
matches collected scanning left to right. -/
def findallAux : Nat → List Char → List String
  | 0, _ => []
  | _ + 1, [] => []
  | n + 1, c :: cs =>
    match numAt (c :: cs) with
    | some (cand, rest) => String.mk cand :: findallAux n rest
    | none => findallAux n cs

def findallNums (s : String) : List String := findallAux s.toList.length s.toList

/-- nums[-1]: the last element of a list presented as head and tail. -/
def lastStr : List String → String → String
  | [], d => d
  | s :: rest, _ => lastStr rest s

/-- The candidate numeric string of a matched line (ocr_ects.py lines
318-326): the unit-suffixed regex first, else the last bare number, else
nothing. -/
def candidateOf (low : String) : Option String :=
  match searchEcts low with
  | some s => some s
  | none =>
    match findallNums low with
    | [] => none
    | n :: ns => some (lastStr ns n)

/-! ## src/utils/ocr_ects.py : the module-overview line scanner -/

/-- The module-map scan: the first entry, in dict insertion order, whose
lowered module name is a substring of the lowered line. -/
def findModule : List (String × String) → String → Option (String × String)
  | [], _ => none
  | (m, cat) :: rest, low =>
    if containsStr low (pyLower m) then some (m, cat) else findModule rest low

/-- Decimal rendering of a parsed credit value inside the audit string; agrees
with Python float formatting on the non-negative at-most-one-fractional-digit
values that this parser produces (8 prints as "8.0", 7.5 as "7.5"). -/
def creditRepr (q : ℚ) : String :=
  let t : Int := q.num * 10 / (q.den : Int)
  toString (t / 10) ++ "." ++ toString (t % 10)

/-- The matched_modules audit entry. -/
def mkAudit (found_mod found_cat : String) (v : ℚ) (line : String) : String :=
  found_mod ++ " -> " ++ found_cat ++ ":" ++ creditRepr v ++ " | " ++ line

/-- The mutable loop state of _extract_ects_from_module_overview. -/
structure OvState where
  sums : List (String × ℚ)
  matched : List String
  unrecognized : List String
deriving DecidableEq

/-- The body of the per-line loop of _extract_ects_from_module_overview.
The Python test `if not found_cat` is true both when no module matched
(found_cat is None) and when the matched category is the empty string. -/
def processLine (module_map : List (String × String)) (st : OvState)
    (raw_line : String) : OvState :=
  if pyStrip raw_line = "" then st
  else if !((pyLower (pyStrip raw_line)).toList.any pyIsDigit) then st
  else
    match findModule module_map (pyLower (pyStrip raw_line)) with
    | none => { st with unrecognized := st.unrecognized ++ [pyStrip raw_line] }
    | some (found_mod, found_cat) =>
      if found_cat = "" then
        { st with unrecognized := st.unrecognized ++ [pyStrip raw_line] }
      else
        match candidateOf (pyLower (pyStrip raw_line)) with
        | none => { st with unrecognized := st.unrecognized ++ [pyStrip raw_line] }
        | some val_str =>
          match parse_credit val_str with
          | none => { st with unrecognized := st.unrecognized ++ [pyStrip raw_line] }
          | some v =>
            { st with
              sums := dictAdd st.sums found_cat v,
              matched := st.matched ++ [mkAudit found_mod found_cat v (pyStrip raw_line)] }

/-- _extract_ects_from_module_overview, parametrised by the OCR text of the
document (ocr_text_from_pdf is an effectful collaborator call). -/
def _extract_ects_from_module_overview (text : String)
    (module_map : List (String × String)) (categories : List String) :
    List (String × ℚ) × List String × List String × String :=
  if pyStrip text = "" then
    (zeroSums categories, [], [], "module_overview_empty")
  else
    let final := (splitlines text).foldl (processLine module_map)
      ⟨zeroSums categories, [], []⟩
    (final.sums, final.matched, final.unrecognized, "module_overview_simple")

/-- Modelled from the spec: the outcome of running the external hOCR extractor
extract_ects_ocr (a collaborator whose module is not under src/) under
func_timeout — it returns a result tuple, exceeds the time budget, or raises
some other exception. -/
inductive ExternOutcome where
  | ok : List (String × ℚ) × List String × List String × String → ExternOutcome
  | timedOut : ExternOutcome
  | failed : ExternOutcome

/-- extract_ects_hybrid, parametrised by whether the path exists, the OCR text
the overview parser would read, and the external-extractor outcome. -/
def extract_ects_hybrid (fileExists : Bool) (text : String)
    (module_map : List (String × String)) (categories : List String)
    (doc_type : String) (ext : ExternOutcome) :
    List (String × ℚ) × List String × List String × String :=
  if !fileExists then (zeroSums categories, [], [], "FAILED_NOFILE")
  else if doc_type = "module_overview" then
    _extract_ects_from_module_overview text module_map categories
  else
    match ext with
    | .ok r => r
    | .timedOut => (zeroSums categories, [], [], "FAILED_TIMEOUT")
    | .failed => (zeroSums categories, [], [], "FAILED_ERROR")

/-! ## Lookup lemmas for the zero sum map -/

theorem dictGet_dictSet_self (d : List (String × ℚ)) (k : String) (v : ℚ) :
    dictGet? (dictSet d k v) k = some v := by
  induction d with
  | nil => simp [dictSet, dictGet?]
  | cons a d ih =>
    obtain ⟨k', v'⟩ := a
    by_cases h : k' = k
    · subst h; simp [dictSet, dictGet?]
    · simp [dictSet, dictGet?, h, ih]

theorem dictGet_dictSet_other (d : List (String × ℚ)) (k k' : String) (v : ℚ)
    (h : k ≠ k') : dictGet? (dictSet d k v) k' = dictGet? d k' := by
  induction d with
  | nil => simp [dictSet, dictGet?, h]
  | cons a d ih =>
    obtain ⟨ka, va⟩ := a
    by_cases hk : ka = k
    · subst hk; simp [dictSet, dictGet?, h]
    · by_cases hk' : ka = k'
      · subst hk'; simp [dictSet, dictGet?, hk]
      · simp [dictSet, dictGet?, hk, hk', ih]

theorem zeroSums_get_aux (cats : List String) :
    ∀ (d : List (String × ℚ)) (c : String),
    (dictGet? d c = some 0 ∨ c ∈ cats) →
    dictGet? (cats.foldl (fun d k => dictSet d k 0) d) c = some 0 := by
  induction cats with
  | nil =>
    intro d c h
    rcases h with h | h
    · exact h
    · cases h
  | cons a t ih =>
    intro d c h
    show dictGet? (t.foldl (fun d k => dictSet d k 0) (dictSet d a 0)) c = some 0
    apply ih
    rcases h with h | h
    · left
      by_cases hac : a = c
      · subst hac; exact dictGet_dictSet_self d a 0
      · rw [dictGet_dictSet_other d a c 0 hac]; exact h
    · rcases List.mem_cons.mp h with h' | h'
      · subst h'; left; exact dictGet_dictSet_self d c 0
      · right; exact h'

/-- Every requested category is mapped to 0 by {cat: 0.0 for cat in categories}. -/
theorem zeroSums_get (cats : List String) (c : String) (hc : c ∈ cats) :
    dictGet? (zeroSums cats) c = some 0 :=
  zeroSums_get_aux cats [] c (Or.inr hc)

/-! ## C2 and C10 -/

/-- C2: extract_ects_hybrid reports a missing file as zero sums, empty match
and unrecognized lists and the tag "FAILED_NOFILE"; when the file exists and
doc_type is not "module_overview", an external-extractor timeout yields the
same zero result tagged "FAILED_TIMEOUT" and any other external-extractor
exception yields it tagged "FAILED_ERROR"; the zero sum map sends every
requested category to 0. -/
theorem extract_ects_hybrid_failure (text : String)
    (module_map : List (String × String)) (categories : List String)
    (doc_type : String) (ext : ExternOutcome) :
    (extract_ects_hybrid false text module_map categories doc_type ext
        = (zeroSums categories, [], [], "FAILED_NOFILE")) ∧
    (doc_type ≠ "module_overview" →
      extract_ects_hybrid true text module_map categories doc_type ExternOutcome.timedOut
        = (zeroSums categories, [], [], "FAILED_TIMEOUT")) ∧
    (doc_type ≠ "module_overview" →
      extract_ects_hybrid true text module_map categories doc_type ExternOutcome.failed
        = (zeroSums categories, [], [], "FAILED_ERROR")) ∧
    (∀ c ∈ categories, dictGet? (zeroSums categories) c = some 0) := by
  refine ⟨rfl, ?_, ?_, ?_⟩
  · intro h; simp [extract_ects_hybrid, h]
  · intro h; simp [extract_ects_hybrid, h]
  · intro c hc; exact zeroSums_get categories c hc

theorem extract_ects_hybrid_failure_witness :
    (extract_ects_hybrid false "t" [] ["math"] "transcript" ExternOutcome.timedOut
        = (zeroSums ["math"], [], [], "FAILED_NOFILE")) ∧
    ("transcript" ≠ "module_overview" ∧
      extract_ects_hybrid true "t" [] ["math"] "transcript" ExternOutcome.timedOut
        = (zeroSums ["math"], [], [], "FAILED_TIMEOUT")) ∧
    (extract_ects_hybrid true "t" [] ["math"] "transcript" ExternOutcome.failed
        = (zeroSums ["math"], [], [], "FAILED_ERROR")) ∧
    ("math" ∈ ["math"] ∧ dictGet? (zeroSums ["math"]) "math" = some 0) :=
  ⟨(extract_ects_hybrid_failure "t" [] ["math"] "transcript" ExternOutcome.timedOut).1,
   ⟨by decide,
    (extract_ects_hybrid_failure "t" [] ["math"] "transcript" ExternOutcome.timedOut).2.1
      (by decide)⟩,
   (extract_ects_hybrid_failure "t" [] ["math"] "transcript" ExternOutcome.timedOut).2.2.1
      (by decide),
   ⟨by decide,
    (extract_ects_hybrid_failure "t" [] ["math"] "transcript" ExternOutcome.timedOut).2.2.2
      "math" (by decide)⟩⟩

/-- C10: with an existing file, doc_type "module_overview" and empty or
whitespace-only recognized text, extraction returns zero sums for every
requested category, empty matched and unrecognized lists and the method tag
"module_overview_empty". -/
theorem extract_ects_hybrid_overview_empty (text : String)
    (module_map : List (String × String)) (categories : List String)
    (ext : ExternOutcome) (h : pyStrip text = "") :
    extract_ects_hybrid true text module_map categories "module_overview" ext
        = (zeroSums categories, [], [], "module_overview_empty") ∧
    (∀ c ∈ categories, dictGet? (zeroSums categories) c = some 0) := by
  refine ⟨?_, fun c hc => zeroSums_get categories c hc⟩
  simp [extract_ects_hybrid, _extract_ects_from_module_overview, h]

theorem extract_ects_hybrid_overview_empty_witness :
    pyStrip " \n " = "" ∧
    (extract_ects_hybrid true " \n " [("a", "b")] ["math", "cs"]
        "module_overview" ExternOutcome.failed
        = (zeroSums ["math", "cs"], [], [], "module_overview_empty") ∧
     (∀ c ∈ ["math", "cs"], dictGet? (zeroSums ["math", "cs"]) c = some 0)) :=
  ⟨by decide,
   extract_ects_hybrid_overview_empty " \n " [("a", "b")] ["math", "cs"]
     ExternOutcome.failed (by decide)⟩

/-! ## C3 : line classes of the module-overview scanner -/

theorem findModule_eq_none {mm : List (String × String)} {low : String}
    (h : ∀ p ∈ mm, containsStr low (pyLower p.1) = false) :
    findModule mm low = none := by
  induction mm with
  | nil => rfl
  | cons a t ih =>
    obtain ⟨m, cat⟩ := a
    have hm : containsStr low (pyLower m) = false :=
      h (m, cat) (List.mem_cons_self _ _)
    show (if containsStr low (pyLower m) then some (m, cat) else findModule t low)
        = none
    rw [hm]
    simp only [Bool.false_eq_true, if_false]
    exact ih (fun p hp => h p (List.mem_cons_of_mem _ hp))

/-- A line with a digit has a non-empty stripped form. -/
theorem strip_ne_empty_of_digit {raw : String}
    (hd : (pyLower (pyStrip raw)).toList.any pyIsDigit = true) :
    pyStrip raw ≠ "" := by
  intro h0
  rw [h0] at hd
  exact absurd hd (by decide)

/-- C3: in the module-overview line scanner, a non-blank line without a digit
leaves the state unchanged; a line with a digit but no module-map name in its
lowered form is appended, stripped, to the unrecognized list; a line with a
digit and a module match from which no numeric candidate can be extracted is
also appended to the unrecognized list, touching neither sums nor matches. -/
theorem processLine_cases (module_map : List (String × String)) (st : OvState)
    (raw : String) :
    (pyStrip raw ≠ "" →
      (pyLower (pyStrip raw)).toList.any pyIsDigit = false →
      processLine module_map st raw = st) ∧
    ((pyLower (pyStrip raw)).toList.any pyIsDigit = true →
      (∀ p ∈ module_map, containsStr (pyLower (pyStrip raw)) (pyLower p.1) = false) →
      processLine module_map st raw
        = { st with unrecognized := st.unrecognized ++ [pyStrip raw] }) ∧
    (∀ m c, (pyLower (pyStrip raw)).toList.any pyIsDigit = true →
      findModule module_map (pyLower (pyStrip raw)) = some (m, c) →
      searchEcts (pyLower (pyStrip raw)) = none →
      findallNums (pyLower (pyStrip raw)) = [] →
      processLine module_map st raw
        = { st with unrecognized := st.unrecognized ++ [pyStrip raw] }) := by
  refine ⟨?_, ?_, ?_⟩
  · intro hne hnd
    unfold processLine
    rw [if_neg hne, hnd]
    rfl
  · intro hd hall
    have hne := strip_ne_empty_of_digit hd
    have hnone := findModule_eq_none hall
    unfold processLine
    rw [if_neg hne, hd, hnone]
    rfl
  · intro m c hd hfind hse hfa
    have hne := strip_ne_empty_of_digit hd
    have hcand : candidateOf (pyLower (pyStrip raw)) = none := by
      unfold candidateOf
      rw [hse, hfa]
    unfold processLine
    rw [if_neg hne, hd, hfind]
    rcases eq_or_ne c "" with hc | hc
    · simp [hc]
    · simp [hc, hcand]

theorem processLine_cases_witness :
    ((pyStrip "hello one" ≠ "" ∧
      (pyLower (pyStrip "hello one")).toList.any pyIsDigit = false) ∧
     processLine [("Analysis", "math")] ⟨[], [], []⟩ "hello one"
        = ⟨[], [], []⟩) ∧
    (((pyLower (pyStrip " Unknown 5 ")).toList.any pyIsDigit = true ∧
      (∀ p ∈ [("Analysis", "math")],
        containsStr (pyLower (pyStrip " Unknown 5 ")) (pyLower p.1) = false)) ∧
     processLine [("Analysis", "math")] ⟨[], [], []⟩ " Unknown 5 "
        = { sums := [], matched := [],
            unrecognized := ([] : List String) ++ [pyStrip " Unknown 5 "] }) ∧
    (((pyLower (pyStrip "Analysis ²")).toList.any pyIsDigit = true ∧
      findModule [("Analysis", "math")] (pyLower (pyStrip "Analysis ²"))
        = some ("Analysis", "math") ∧
      searchEcts (pyLower (pyStrip "Analysis ²")) = none ∧
      findallNums (pyLower (pyStrip "Analysis ²")) = []) ∧
     processLine [("Analysis", "math")] ⟨[], [], []⟩ "Analysis ²"
        = { sums := [], matched := [],
            unrecognized := ([] : List String) ++ [pyStrip "Analysis ²"] }) :=
  ⟨⟨⟨by decide, by decide⟩,
    (processLine_cases [("Analysis", "math")] ⟨[], [], []⟩ "hello one").1
      (by decide) (by decide)⟩,
   ⟨⟨by decide, by decide⟩,
    (processLine_cases [("Analysis", "math")] ⟨[], [], []⟩ " Unknown 5 ").2.1
      (by decide) (by decide)⟩,
   ⟨⟨by decide, by decide, by decide, by decide⟩,
    (processLine_cases [("Analysis", "math")] ⟨[], [], []⟩ "Analysis ²").2.2
      "Analysis" "math" (by decide) (by decide) (by decide) (by decide)⟩⟩

/-! ## C4 : every scanner candidate parses as a float -/

theorem toList_mk (l : List Char) : (String.mk l).toList = l := rfl

theorem digit_ne_comma {c : Char} (hc : c.isDigit = true) : ¬(c = ',') :=
  fun h => by subst h; exact absurd hc (by decide)

theorem digit_ne_minus {c : Char} (hc : c.isDigit = true) : ¬(c = '-') :=
  fun h => by subst h; exact absurd hc (by decide)

theorem digit_ne_plus {c : Char} (hc : c.isDigit = true) : ¬(c = '+') :=
  fun h => by subst h; exact absurd hc (by decide)

theorem comma_map_digit {c : Char} (hc : c.isDigit = true) :
    (if c = ',' then '.' else c) = c := if_neg (digit_ne_comma hc)

theorem comma_map_sep {p : Char} (hp : p = '.' ∨ p = ',') :
    (if p = ',' then '.' else p) = '.' := by
  rcases hp with h | h <;> subst h <;> decide

theorem isDigit_dot : ('.' : Char).isDigit = false := by decide

theorem pyFloat_cons (c : Char) (r : List Char) (hm : ¬(c = '-'))
    (hp : ¬(c = '+')) : pyFloat (String.mk (c :: r)) = pyFloatCore (c :: r) := by
  show (if c = '-' then (pyFloatCore r).map (fun q => -q)
        else if c = '+' then pyFloatCore r
        else pyFloatCore (c :: r)) = pyFloatCore (c :: r)
  rw [if_neg hm, if_neg hp]

theorem parse_credit_d1 {c : Char} (hc : c.isDigit = true) :
    ∃ q, parse_credit (String.mk [c]) = some q := by
  rw [← Option.isSome_iff_exists]
  unfold parse_credit commaToDot
  rw [toList_mk]
  simp only [List.map_cons, List.map_nil, comma_map_digit hc]
  rw [pyFloat_cons c [] (digit_ne_minus hc) (digit_ne_plus hc)]
  unfold pyFloatCore
  simp [List.takeWhile_cons, List.dropWhile_cons, hc]

theorem parse_credit_d2 {c d : Char} (hc : c.isDigit = true)
    (hd : d.isDigit = true) : ∃ q, parse_credit (String.mk [c, d]) = some q := by
  rw [← Option.isSome_iff_exists]
  unfold parse_credit commaToDot
  rw [toList_mk]
  simp only [List.map_cons, List.map_nil, comma_map_digit hc, comma_map_digit hd]
  rw [pyFloat_cons c [d] (digit_ne_minus hc) (digit_ne_plus hc)]
  unfold pyFloatCore
  simp [List.takeWhile_cons, List.dropWhile_cons, hc, hd]

theorem parse_credit_f1 {c p e : Char} (hc : c.isDigit = true)
    (hp : p = '.' ∨ p = ',') (he : e.isDigit = true) :
    ∃ q, parse_credit (String.mk [c, p, e]) = some q := by
  rw [← Option.isSome_iff_exists]
  unfold parse_credit commaToDot
  rw [toList_mk]
  simp only [List.map_cons, List.map_nil, comma_map_digit hc, comma_map_sep hp,
    comma_map_digit he]
  rw [pyFloat_cons c ['.', e] (digit_ne_minus hc) (digit_ne_plus hc)]
  unfold pyFloatCore
  simp [List.takeWhile_cons, List.dropWhile_cons, hc, he, isDigit_dot]

theorem parse_credit_f2 {c d p e : Char} (hc : c.isDigit = true)
    (hd : d.isDigit = true) (hp : p = '.' ∨ p = ',') (he : e.isDigit = true) :
    ∃ q, parse_credit (String.mk [c, d, p, e]) = some q := by
  rw [← Option.isSome_iff_exists]
  unfold parse_credit commaToDot
  rw [toList_mk]
  simp only [List.map_cons, List.map_nil, comma_map_digit hc, comma_map_digit hd,
    comma_map_sep hp, comma_map_digit he]
  rw [pyFloat_cons c [d, '.', e] (digit_ne_minus hc) (digit_ne_plus hc)]
  unfold pyFloatCore
  simp [List.takeWhile_cons, List.dropWhile_cons, hc, hd, he, isDigit_dot]

theorem fracAt_shape (l : List Char) :
    (fracAt l).1 = [] ∨
    ∃ p e, (fracAt l).1 = [p, e] ∧ (p = '.' ∨ p = ',') ∧ e.isDigit = true := by
  rcases l with - | ⟨p, - | ⟨e, r⟩⟩
  · exact Or.inl rfl
  · exact Or.inl rfl
  · by_cases h : ((p = '.' || p = ',') && e.isDigit) = true
    · right
      refine ⟨p, e, ?_, ?_, ?_⟩
      · show (if (p = '.' || p = ',') && e.isDigit then ([p, e], r)
              else ([], p :: e :: r)).1 = [p, e]
        rw [if_pos h]
      · have h1 := ((Bool.and_eq_true _ _).mp h).1
        rcases (Bool.or_eq_true _ _).mp h1 with h2 | h2
        · exact Or.inl (of_decide_eq_true h2)
        · exact Or.inr (of_decide_eq_true h2)
      · exact ((Bool.and_eq_true _ _).mp h).2
    · left
      show (if (p = '.' || p = ',') && e.isDigit then ([p, e], r)
            else ([], p :: e :: r)).1 = []
      rw [if_neg h]

theorem numAt_parseable {l cand rest : List Char}
    (h : numAt l = some (cand, rest)) :
    ∃ q, parse_credit (String.mk cand) = some q := by
  rcases l with - | ⟨c, r⟩
  · exact absurd h (by simp [numAt])
  · by_cases hc : c.isDigit = true
    · rcases r with - | ⟨d, r2⟩
      · have h' : some (([c] : List Char), ([] : List Char)) = some (cand, rest) := by
          rw [← h]; simp [numAt, hc]
        have hcand : cand = [c] :=
          (((Prod.mk.injEq _ _ _ _).mp (Option.some.inj h')).1).symm
        subst hcand
        exact parse_credit_d1 hc
      · by_cases hd : d.isDigit = true
        · have h' : some ([c, d] ++ (fracAt r2).1, (fracAt r2).2)
              = some (cand, rest) := by
            rw [← h]; simp [numAt, hc, hd]
          have hcand : cand = [c, d] ++ (fracAt r2).1 :=
            (((Prod.mk.injEq _ _ _ _).mp (Option.some.inj h')).1).symm
          rcases fracAt_shape r2 with hf | ⟨p, e, hf, hp, he⟩
          · rw [hf, List.append_nil] at hcand
            subst hcand
            exact parse_credit_d2 hc hd
          · rw [hf] at hcand
            subst hcand
            exact parse_credit_f2 hc hd hp he
        · have h' : some ([c] ++ (fracAt (d :: r2)).1, (fracAt (d :: r2)).2)
              = some (cand, rest) := by
            rw [← h]; simp [numAt, hc, hd]
          have hcand : cand = [c] ++ (fracAt (d :: r2)).1 :=
            (((Prod.mk.injEq _ _ _ _).mp (Option.some.inj h')).1).symm
          rcases fracAt_shape (d :: r2) with hf | ⟨p, e, hf, hp, he⟩
          · rw [hf, List.append_nil] at hcand
            subst hcand
            exact parse_credit_d1 hc
          · rw [hf] at hcand
            subst hcand
            exact parse_credit_f1 hc hp he
    · exact absurd h (by simp [numAt, hc])

theorem ectsMatchAt_shape {l cand : List Char} (h : ectsMatchAt l = some cand) :
    ∃ rest, numAt l = some (cand, rest) := by
  unfold ectsMatchAt at h
  cases hn : numAt l with
  | none => rw [hn] at h; cases h
  | some pr =>
    obtain ⟨cand', rest⟩ := pr
    rw [hn] at h
    by_cases hu : unitAt (rest.dropWhile pyIsSpace) = true
    · simp only [hu, if_true] at h
      exact ⟨rest, by rw [Option.some.inj h]⟩
    · simp [hu] at h

theorem searchEctsAux_shape : ∀ (n : Nat) (l cand : List Char),
    searchEctsAux n l = some cand → ∃ l' rest, numAt l' = some (cand, rest) := by
  intro n
  induction n with
  | zero => intro l cand h; simp [searchEctsAux] at h
  | succ n ih =>
    intro l cand h
    rcases l with - | ⟨c, cs⟩
    · simp [searchEctsAux] at h
    · cases hm : ectsMatchAt (c :: cs) with
      | none =>
        rw [searchEctsAux, hm] at h
        exact ih cs cand h
      | some cand' =>
        rw [searchEctsAux, hm] at h
        obtain ⟨rest, hn⟩ := ectsMatchAt_shape hm
        exact ⟨c :: cs, rest, by rw [hn, Option.some.inj h]⟩

theorem findallAux_shape : ∀ (n : Nat) (l : List Char) (s : String),
    s ∈ findallAux n l →
    ∃ l' cand rest, numAt l' = some (cand, rest) ∧ s = String.mk cand := by
  intro n
  induction n with
  | zero => intro l s h; simp [findallAux] at h
  | succ n ih =>
    intro l s h
    rcases l with - | ⟨c, cs⟩
    · simp [findallAux] at h
    · cases hn : numAt (c :: cs) with
      | none =>
        rw [findallAux, hn] at h
        exact ih cs s h
      | some pr =>
        obtain ⟨cand, rest⟩ := pr
        rw [findallAux, hn] at h
        rcases List.mem_cons.mp h with h' | h'
        · exact ⟨c :: cs, cand, rest, hn, h'⟩
        · exact ih rest s h'

theorem lastStr_mem : ∀ (l : List String) (d : String),
    lastStr l d = d ∨ lastStr l d ∈ l := by
  intro l
  induction l with
  | nil => intro d; exact Or.inl rfl
  | cons s rest ih =>
    intro d
    rcases ih s with h | h
    · right
      show lastStr rest s ∈ s :: rest
      rw [h]
      exact List.mem_cons_self _ _
    · right
      show lastStr rest s ∈ s :: rest
      exact List.mem_cons_of_mem _ h

theorem candidateOf_shape {low s : String} (h : candidateOf low = some s) :
    ∃ l' cand rest, numAt l' = some (cand, rest) ∧ s = String.mk cand := by
  unfold candidateOf at h
  cases hs : searchEcts low with
  | some s' =>
    rw [hs] at h
    have hss : s' = s := by simpa using h
    unfold searchEcts at hs
    cases ha : searchEctsAux low.toList.length low.toList with
    | none => rw [ha] at hs; cases hs
    | some cand =>
      rw [ha] at hs
      have hmk : String.mk cand = s' := by simpa using hs
      obtain ⟨l', rest, hn⟩ := searchEctsAux_shape _ _ _ ha
      exact ⟨l', cand, rest, hn, by rw [← hss, ← hmk]⟩
  | none =>
    rw [hs] at h
    cases hf : findallNums low with
    | nil => rw [hf] at h; cases h
    | cons nh nt =>
      rw [hf] at h
      have hls : lastStr nt nh = s := by simpa using h
      have hmem : s ∈ findallNums low := by
        rw [hf, ← hls]
        rcases lastStr_mem nt nh with he | he
        · rw [he]; exact List.mem_cons_self _ _
        · exact List.mem_cons_of_mem _ he
      exact findallAux_shape low.toList.length low.toList s hmem

/-- C4: on a line with a digit whose module match has a truthy category, any
candidate numeric string the scanner produces parses as a float, its value is
added to the matched category's sum and the line goes to the matched list —
never to the unrecognized list. -/
theorem processLine_adds (module_map : List (String × String)) (st : OvState)
    (raw m c s : String) :
    (pyLower (pyStrip raw)).toList.any pyIsDigit = true →
    findModule module_map (pyLower (pyStrip raw)) = some (m, c) →
    c ≠ "" →
    candidateOf (pyLower (pyStrip raw)) = some s →
    ∃ q, parse_credit s = some q ∧
      processLine module_map st raw =
        { sums := dictAdd st.sums c q,
          matched := st.matched ++ [mkAudit m c q (pyStrip raw)],
          unrecognized := st.unrecognized } := by
  intro hd hfind hc hcand
  obtain ⟨l', cand, rest, hn, hs⟩ := candidateOf_shape hcand
  obtain ⟨q, hq⟩ := numAt_parseable hn
  rw [← hs] at hq
  refine ⟨q, hq, ?_⟩
  have hne := strip_ne_empty_of_digit hd
  unfold processLine
  rw [if_neg hne, hd, hfind]
  simp [hc, hcand, hq]

theorem processLine_adds_witness :
    ((pyLower (pyStrip "Analysis I 8 ECTS")).toList.any pyIsDigit = true ∧
     findModule [("Analysis I", "math")] (pyLower (pyStrip "Analysis I 8 ECTS"))
        = some ("Analysis I", "math") ∧
     ("math" : String) ≠ "" ∧
     candidateOf (pyLower (pyStrip "Analysis I 8 ECTS")) = some "8") ∧
    (∃ q, parse_credit "8" = some q ∧
      processLine [("Analysis I", "math")] ⟨[], [], []⟩ "Analysis I 8 ECTS" =
        { sums := dictAdd [] "math" q,
          matched := ([] : List String)
            ++ [mkAudit "Analysis I" "math" q (pyStrip "Analysis I 8 ECTS")],
          unrecognized := [] }) :=
  ⟨⟨by decide, by decide, by decide, by decide⟩,
   processLine_adds [("Analysis I", "math")] ⟨[], [], []⟩ "Analysis I 8 ECTS"
     "Analysis I" "math" "8" (by decide) (by decide) (by decide) (by decide)⟩

/-! ## C5 : comma and dot decimal separators are interchangeable -/

/-- C5: two credit-value strings that differ only in their decimal separator
(formally: they agree after the code's comma-to-dot replacement) parse to the
same value and hence contribute identically to any category sum. -/
theorem parse_credit_sep_equal (s₁ s₂ : String)
    (h : commaToDot s₁ = commaToDot s₂) :
    parse_credit s₁ = parse_credit s₂ ∧
    ∀ (sums : List (String × ℚ)) (cat : String) (q₁ q₂ : ℚ),
      parse_credit s₁ = some q₁ → parse_credit s₂ = some q₂ →
      dictAdd sums cat q₁ = dictAdd sums cat q₂ := by
  have h1 : parse_credit s₁ = parse_credit s₂ := by
    unfold parse_credit
    rw [h]
  refine ⟨h1, ?_⟩
  intro sums cat q₁ q₂ hq₁ hq₂
  have hq : q₁ = q₂ := by
    rw [h1, hq₂] at hq₁
    exact (Option.some.inj hq₁).symm
  rw [hq]

theorem parse_credit_sep_equal_witness :
    commaToDot "7,5" = commaToDot "7.5" ∧
    (parse_credit "7,5" = parse_credit "7.5" ∧
     ∀ (sums : List (String × ℚ)) (cat : String) (q₁ q₂ : ℚ),
       parse_credit "7,5" = some q₁ → parse_credit "7.5" = some q₂ →
       dictAdd sums cat q₁ = dictAdd sums cat q₂) :=
  ⟨by decide, parse_credit_sep_equal "7,5" "7.5" (by decide)⟩

/-! ## src/utils/ocr_ects.py : ocr_text_from_pdf and the text cache -/

/-- Abstract environment of the OCR pipeline's external collaborators: the
content fingerprint of a path (the file bytes are fixed for the process
lifetime), the page renderer convert_from_path (none models its exception
branch — corrupt file or unsupported format — which the source catches), the
per-page recognizer (page-level timeouts and errors are already folded into
the returned page text, as _ocr_single_image substitutes "" for them),
whether consuming executor.map(..., timeout=CONFIG.TIMEOUT_SECONDS) for this
call would exceed the single whole-document deadline and raise an uncaught
TimeoutError, and how many per-page recognitions had already run when that
deadline fired (their results are discarded, never merged). -/
structure OcrEnv where
  fileHash : String → String
  render : String → Nat → Option Nat → Option (List Nat)
  ocrPage : Nat → String
  mapTimesOut : String → Nat → Option Nat → Bool
  mapOcrRuns : String → Nat → Option Nat → Nat

/-- Cache key of _OCR_TEXT_CACHE: (file_hash, dpi, psm, max_pages). -/
abbrev OcrKey := String × Nat × Nat × Option Nat

/-- CONFIG.DEFAULT_PSM. -/
def CONFIG_DEFAULT_PSM : Nat := 6

def cacheGet? : List (OcrKey × String) → OcrKey → Option String
  | [], _ => none
  | (k, v) :: c, key => if k = key then some v else cacheGet? c key

def cacheSet : List (OcrKey × String) → OcrKey → String → List (OcrKey × String)
  | [], k, v => [(k, v)]
  | (k', v') :: c, k, v =>
    if k' = k then (k', v) :: c else (k', v') :: cacheSet c k v

/-- The cache key built on line 197 of ocr_ects.py. -/
def ocrKey (env : OcrEnv) (pdf_path : String) (dpi : Nat)
    (max_pages : Option Nat) : OcrKey :=
  (env.fileHash pdf_path, dpi, CONFIG_DEFAULT_PSM, max_pages)

/-- One call of ocr_text_from_pdf: its outcome (some text on a normal return,
none when the call raises an uncaught exception), the cache afterwards, and
how many times the renderer and the per-page recognizer were invoked. -/
structure OcrOut where
  result : Option String
  cache : List (OcrKey × String)
  renderCalls : Nat
  ocrCalls : Nat
deriving DecidableEq

/-- ocr_text_from_pdf (ocr_ects.py lines 184-233) with the process-wide text
cache passed explicitly.  A cache hit returns the stored text with no
collaborator invocation.  On a miss: a renderer exception is caught and
returns "" WITHOUT writing the cache; with zero rendered pages,
ThreadPoolExecutor(max_workers=min(0, MAX_WORKERS)) raises an uncaught
ValueError (no cache write); if consuming executor.map exceeds the
whole-document deadline, an uncaught TimeoutError propagates after the
renderer already ran, discarding any partial per-page work (no cache write);
otherwise the pages are recognized in page order (executor.map preserves
input order), joined with newlines, and the result is cached under the
key. -/
def ocr_text_from_pdf (env : OcrEnv) (cache : List (OcrKey × String))
    (pdf_path : String) (dpi : Nat) (max_pages : Option Nat) : OcrOut :=
  match cacheGet? cache (ocrKey env pdf_path dpi max_pages) with
  | some t => ⟨some t, cache, 0, 0⟩
  | none =>
    match env.render pdf_path dpi max_pages with
    | none => ⟨some "", cache, 1, 0⟩
    | some images =>
      if images = [] then ⟨none, cache, 1, 0⟩
      else if env.mapTimesOut pdf_path dpi max_pages then
        ⟨none, cache, 1, env.mapOcrRuns pdf_path dpi max_pages⟩
      else
        ⟨some (String.intercalate "\n" (images.map env.ocrPage)),
         cacheSet cache (ocrKey env pdf_path dpi max_pages)
           (String.intercalate "\n" (images.map env.ocrPage)),
         1, images.length⟩

theorem cacheGet_cacheSet_self (c : List (OcrKey × String)) (k : OcrKey)
    (v : String) : cacheGet? (cacheSet c k v) k = some v := by
  induction c with
  | nil => simp [cacheSet, cacheGet?]
  | cons a c ih =>
    obtain ⟨k', v'⟩ := a
    by_cases h : k' = k
    · subst h; simp [cacheSet, cacheGet?]
    · simp [cacheSet, cacheGet?, h, ih]

theorem cacheGet_cacheSet_other (c : List (OcrKey × String)) (k k' : OcrKey)
    (v : String) (h : k ≠ k') :
    cacheGet? (cacheSet c k v) k' = cacheGet? c k' := by
  induction c with
  | nil => simp [cacheSet, cacheGet?, h]
  | cons a c ih =>
    obtain ⟨ka, va⟩ := a
    by_cases hk : ka = k
    · subst hk; simp [cacheSet, cacheGet?, h]
    · by_cases hk' : ka = k'
      · subst hk'; simp [cacheSet, cacheGet?, hk]
      · simp [cacheSet, cacheGet?, hk, hk', ih]

/-! ## C7 and C8 -/

/-- A renderer that always raises (e.g. a corrupt file). -/
def envFail : OcrEnv :=
  ⟨fun _ => "h", fun _ _ _ => none, fun _ => "", fun _ _ _ => false,
   fun _ _ _ => 0⟩

/-- C7 counterexample: when page rendering raises, ocr_text_from_pdf returns
"" without writing the cache, so the second identical call re-invokes the
renderer — it is not served from the text cache, contradicting the claim as
stated for this file. -/
theorem ocr_cache_hit_counterexample :
    ¬ ((ocr_text_from_pdf envFail
          (ocr_text_from_pdf envFail [] "doc.pdf" 200 none).cache
          "doc.pdf" 200 none).renderCalls = 0) := by decide

/-- C7 amended: provided the first call actually computes and caches a text —
its page rendering succeeds, at least one page is rendered (otherwise the
zero-worker pool construction raises uncaught), and the whole-document
recognition deadline does not fire (otherwise executor.map raises uncaught
after rendering, leaving the cache unwritten) — a second call with the
identical parameters returns a result identical to the first call's, served
from the text cache with no renderer or per-page recognizer invocation and
with the cache unchanged. -/
theorem ocr_cache_hit (env : OcrEnv) (cache : List (OcrKey × String))
    (pdf_path : String) (dpi : Nat) (max_pages : Option Nat)
    (images : List Nat)
    (h1 : env.render pdf_path dpi max_pages = some images)
    (h2 : images ≠ [])
    (h3 : env.mapTimesOut pdf_path dpi max_pages = false) :
    (ocr_text_from_pdf env
        (ocr_text_from_pdf env cache pdf_path dpi max_pages).cache
        pdf_path dpi max_pages).result
      = (ocr_text_from_pdf env cache pdf_path dpi max_pages).result ∧
    (ocr_text_from_pdf env
        (ocr_text_from_pdf env cache pdf_path dpi max_pages).cache
        pdf_path dpi max_pages).renderCalls = 0 ∧
    (ocr_text_from_pdf env
        (ocr_text_from_pdf env cache pdf_path dpi max_pages).cache
        pdf_path dpi max_pages).ocrCalls = 0 ∧
    (ocr_text_from_pdf env
        (ocr_text_from_pdf env cache pdf_path dpi max_pages).cache
        pdf_path dpi max_pages).cache
      = (ocr_text_from_pdf env cache pdf_path dpi max_pages).cache := by
  cases hc : cacheGet? cache (ocrKey env pdf_path dpi max_pages) with
  | some t =>
    have hfst : ocr_text_from_pdf env cache pdf_path dpi max_pages
        = ⟨some t, cache, 0, 0⟩ := by
      unfold ocr_text_from_pdf; rw [hc]
    simp [hfst]
  | none =>
    have hfst : ocr_text_from_pdf env cache pdf_path dpi max_pages
        = ⟨some (String.intercalate "\n" (images.map env.ocrPage)),
           cacheSet cache (ocrKey env pdf_path dpi max_pages)
             (String.intercalate "\n" (images.map env.ocrPage)),
           1, images.length⟩ := by
      unfold ocr_text_from_pdf
      rw [hc, h1]
      simp [h2, h3]
    have hhit : cacheGet?
        (cacheSet cache (ocrKey env pdf_path dpi max_pages)
          (String.intercalate "\n" (images.map env.ocrPage)))
        (ocrKey env pdf_path dpi max_pages)
        = some (String.intercalate "\n" (images.map env.ocrPage)) :=
      cacheGet_cacheSet_self cache _ _
    have hsnd : ocr_text_from_pdf env
        (cacheSet cache (ocrKey env pdf_path dpi max_pages)
          (String.intercalate "\n" (images.map env.ocrPage)))
        pdf_path dpi max_pages
        = ⟨some (String.intercalate "\n" (images.map env.ocrPage)),
           cacheSet cache (ocrKey env pdf_path dpi max_pages)
             (String.intercalate "\n" (images.map env.ocrPage)),
           0, 0⟩ := by
      unfold ocr_text_from_pdf; rw [hhit]
    simp [hfst, hsnd]

/-- A two-page, successfully rendering and timely recognizing environment. -/
def envOk7 : OcrEnv :=
  ⟨fun p => p, fun _ _ _ => some [0, 1], fun n => if n = 0 then "pa" else "pb",
   fun _ _ _ => false, fun _ _ _ => 0⟩

theorem ocr_cache_hit_witness :
    envOk7.render "doc.pdf" 200 none = some [0, 1] ∧
    ([0, 1] : List Nat) ≠ [] ∧
    envOk7.mapTimesOut "doc.pdf" 200 none = false ∧
    ((ocr_text_from_pdf envOk7
        (ocr_text_from_pdf envOk7 [] "doc.pdf" 200 none).cache
        "doc.pdf" 200 none).result
      = (ocr_text_from_pdf envOk7 [] "doc.pdf" 200 none).result ∧
     (ocr_text_from_pdf envOk7
        (ocr_text_from_pdf envOk7 [] "doc.pdf" 200 none).cache
        "doc.pdf" 200 none).renderCalls = 0 ∧
     (ocr_text_from_pdf envOk7
        (ocr_text_from_pdf envOk7 [] "doc.pdf" 200 none).cache
        "doc.pdf" 200 none).ocrCalls = 0 ∧
     (ocr_text_from_pdf envOk7
        (ocr_text_from_pdf envOk7 [] "doc.pdf" 200 none).cache
        "doc.pdf" 200 none).cache
      = (ocr_text_from_pdf envOk7 [] "doc.pdf" 200 none).cache) :=
  ⟨by decide, by decide, by decide,
   ocr_cache_hit envOk7 [] "doc.pdf" 200 none [0, 1]
     (by decide) (by decide) (by decide)⟩

/-- C8: the cache key is (fingerprint, dpi, recognition mode, page limit), so
a preview call (page limit 1) and a full call (no page limit) on the same
file never share a cache entry: their keys always differ in the page-limit
component, every call — on the hit path, on each of the three failure paths
and on the success path — reads and writes only its own key, and the preview
call's result is unaffected by whatever is stored under the full call's
key. -/
theorem ocr_cache_key_separation (env : OcrEnv) (cache : List (OcrKey × String))
    (pdf_path : String) (dpi : Nat) (k' : OcrKey) (t : String) :
    ocrKey env pdf_path dpi (some 1) ≠ ocrKey env pdf_path dpi none ∧
    (∀ mp, k' ≠ ocrKey env pdf_path dpi mp →
      cacheGet? (ocr_text_from_pdf env cache pdf_path dpi mp).cache k'
        = cacheGet? cache k') ∧
    ((ocr_text_from_pdf env
        (cacheSet cache (ocrKey env pdf_path dpi none) t)
        pdf_path dpi (some 1)).result
      = (ocr_text_from_pdf env cache pdf_path dpi (some 1)).result) := by
  have hne : ocrKey env pdf_path dpi (some 1) ≠ ocrKey env pdf_path dpi none := by
    simp [ocrKey]
  refine ⟨hne, ?_, ?_⟩
  · intro mp hk'
    cases hc : cacheGet? cache (ocrKey env pdf_path dpi mp) with
    | some t' =>
      have h1 : ocr_text_from_pdf env cache pdf_path dpi mp
          = ⟨some t', cache, 0, 0⟩ := by
        unfold ocr_text_from_pdf; rw [hc]
      rw [h1]
    | none =>
      cases hr : env.render pdf_path dpi mp with
      | none =>
        have h1 : ocr_text_from_pdf env cache pdf_path dpi mp
            = ⟨some "", cache, 1, 0⟩ := by
          unfold ocr_text_from_pdf; rw [hc, hr]
        rw [h1]
      | some images =>
        by_cases himg : images = []
        · have h1 : ocr_text_from_pdf env cache pdf_path dpi mp
              = ⟨none, cache, 1, 0⟩ := by
            unfold ocr_text_from_pdf; rw [hc, hr]; simp [himg]
          rw [h1]
        · cases ht : env.mapTimesOut pdf_path dpi mp with
          | true =>
            have h1 : ocr_text_from_pdf env cache pdf_path dpi mp
                = ⟨none, cache, 1, env.mapOcrRuns pdf_path dpi mp⟩ := by
              unfold ocr_text_from_pdf; rw [hc, hr]; simp [himg, ht]
            rw [h1]
          | false =>
            have h1 : ocr_text_from_pdf env cache pdf_path dpi mp
                = ⟨some (String.intercalate "\n" (images.map env.ocrPage)),
                   cacheSet cache (ocrKey env pdf_path dpi mp)
                     (String.intercalate "\n" (images.map env.ocrPage)),
                   1, images.length⟩ := by
              unfold ocr_text_from_pdf; rw [hc, hr]; simp [himg, ht]
            rw [h1]
            exact cacheGet_cacheSet_other cache _ k' _ hk'.symm
  · have hget : cacheGet? (cacheSet cache (ocrKey env pdf_path dpi none) t)
        (ocrKey env pdf_path dpi (some 1))
        = cacheGet? cache (ocrKey env pdf_path dpi (some 1)) :=
      cacheGet_cacheSet_other cache _ _ t hne.symm
    unfold ocr_text_from_pdf
    rw [hget]
    cases hc : cacheGet? cache (ocrKey env pdf_path dpi (some 1)) with
    | some t' => rfl
    | none =>
      cases hr : env.render pdf_path dpi (some 1) with
      | none => rfl
      | some images =>
        by_cases himg : images = []
        · simp [himg]
        · cases ht : env.mapTimesOut pdf_path dpi (some 1) with
          | true => simp [himg, ht]
          | false => simp [himg, ht]

/-- A single-page environment for the key-separation witness. -/
def envOk8 : OcrEnv :=
  ⟨fun p => p, fun _ _ _ => some [3], fun _ => "pg", fun _ _ _ => false,
   fun _ _ _ => 0⟩

theorem ocr_cache_key_separation_witness :
    (ocrKey envOk8 "f.pdf" 200 (some 1) ≠ ocrKey envOk8 "f.pdf" 200 none) ∧
    ((("z", 0, 0, (none : Option Nat)) : OcrKey)
        ≠ ocrKey envOk8 "f.pdf" 200 (some 1) ∧
     cacheGet? (ocr_text_from_pdf envOk8 [] "f.pdf" 200 (some 1)).cache
        ("z", 0, 0, (none : Option Nat))
        = cacheGet? [] ("z", 0, 0, (none : Option Nat))) ∧
    ((ocr_text_from_pdf envOk8
        (cacheSet [] (ocrKey envOk8 "f.pdf" 200 none) "tt")
        "f.pdf" 200 (some 1)).result
      = (ocr_text_from_pdf envOk8 [] "f.pdf" 200 (some 1)).result) :=
  ⟨(ocr_cache_key_separation envOk8 [] "f.pdf" 200
      ("z", 0, 0, (none : Option Nat)) "tt").1,
   ⟨by decide,
    (ocr_cache_key_separation envOk8 [] "f.pdf" 200
      ("z", 0, 0, (none : Option Nat)) "tt").2.1 (some 1) (by decide)⟩,
   (ocr_cache_key_separation envOk8 [] "f.pdf" 200
      ("z", 0, 0, (none : Option Nat)) "tt").2.2⟩

/-! ## src/utils/university_matcher.py -/

def UNI_KEYWORDS : List String :=
  ["hochschule", "fachhochschule", "universität", "university", "college",
   "academy", "akademie", "institut", "institute", "polytechnic", "school of"]

/-- Unicode NFKD decomposition followed by removal of combining marks, per
character, on the characters exercised in this development (the German and
common Latin diacritics); other characters decompose to themselves. -/
def nfkdStrip (c : Char) : List Char :=
  if c = 'ä' then ['a'] else if c = 'ö' then ['o'] else if c = 'ü' then ['u']
  else if c = 'é' then ['e'] else if c = 'è' then ['e'] else if c = 'á' then ['a']
  else [c]

/-- The two substitution passes of _norm: after diacritic stripping, ß becomes
"ss" and every character outside [a-z0-9 ] becomes a space. -/
def normChars (l : List Char) : List Char :=
  ((l.flatMap nfkdStrip).flatMap (fun c => if c = 'ß' then ['s', 's'] else [c])).map
    (fun c => if ('a' ≤ c && c ≤ 'z') || ('0' ≤ c && c ≤ '9') || c = ' '
              then c else ' ')

/-- re.sub(\s+, " "): collapse runs of spaces (after the previous pass the
only whitespace left is the space character); the flag records whether the
previous kept character was a space. -/
def collapseAux : Bool → List Char → List Char
  | _, [] => []
  | prev, c :: rest =>
    if c = ' ' then
      if prev then collapseAux true rest else ' ' :: collapseAux true rest
    else c :: collapseAux false rest

/-- Final strip: only spaces remain at this point. -/
def stripSpaces (l : List Char) : List Char :=
  ((l.dropWhile (fun c => c = ' ')).reverse.dropWhile (fun c => c = ' ')).reverse

/-- _norm: empty in, empty out; otherwise lower-case, NFKD with combining-mark
removal, sharp-s substitution, non-alphanumeric-to-space, space-run collapse,
trim. -/
def _norm (s : String) : String :=
  if s = "" then ""
  else String.mk (stripSpaces (collapseAux false (normChars (pyLower s).toList)))

/-- extract_university_candidates: a line whose lower-cased form contains an
institution keyword contributes its normalized form, provided that form has
at least 5 characters. -/
def extract_university_candidates (text : String) : List String :=
  (splitlines text).foldl
    (fun cands ln =>
      if UNI_KEYWORDS.any (fun k => containsStr (pyLower ln) k) then
        if 5 ≤ (_norm ln).length then cands ++ [_norm ln] else cands
      else cands) []

/-! ## C9 -/

theorem extract_candidates_aux (lines : List String) :
    ∀ acc : List String, (∀ c ∈ acc, 5 ≤ c.length) →
    ∀ c ∈ lines.foldl
      (fun cands ln =>
        if UNI_KEYWORDS.any (fun k => containsStr (pyLower ln) k) then
          if 5 ≤ (_norm ln).length then cands ++ [_norm ln] else cands
        else cands) acc, 5 ≤ c.length := by
  induction lines with
  | nil => intro acc hacc c hc; exact hacc c hc
  | cons ln rest ih =>
    intro acc hacc
    have hstep : ∀ c ∈ (if UNI_KEYWORDS.any (fun k => containsStr (pyLower ln) k)
          then if 5 ≤ (_norm ln).length then acc ++ [_norm ln] else acc
          else acc), 5 ≤ c.length := by
      intro c hc
      split_ifs at hc with h1 h2
      · rcases List.mem_append.mp hc with h | h
        · exact hacc c h
        · rcases List.mem_cons.mp h with h' | h'
          · rw [h']; exact h2
          · cases h'
      · exact hacc c hc
      · exact hacc c hc
    exact fun c hc => ih _ hstep c hc

/-- C9: the normalization maps "Universität Düsseldorf" and
"universitat dusseldorf" to the same string, and no line whose normalized
form is shorter than 5 characters is ever accepted as a university candidate
(every accepted candidate is a normalized form of length at least 5), keyword
or not. -/
theorem university_matcher_norm (text : String) :
    _norm "Universität Düsseldorf" = _norm "universitat dusseldorf" ∧
    ∀ c ∈ extract_university_candidates text, 5 ≤ c.length := by
  refine ⟨by decide, ?_⟩
  intro c hc
  exact extract_candidates_aux (splitlines text) [] (by intro c hc; cases hc) c hc

theorem university_matcher_norm_witness :
    _norm "Universität Düsseldorf" = _norm "universitat dusseldorf" ∧
    ("university hall" ∈ extract_university_candidates "University Hall\nx" ∧
     5 ≤ ("university hall" : String).length) :=
  ⟨(university_matcher_norm "University Hall\nx").1,
   by decide,
   (university_matcher_norm "University Hall\nx").2 "university hall" (by decide)⟩
